import Mathlib

/-!
Verification development for the jpamb-group26 fuzzing interpreter.

Shallow embedding of `src/solutions/interpreter.py` (execution state, the
`step` function, the `run_method` driver) and of `src/solutions/fuzzer.py`
(coverage counters, comparison feedback, interestingness merge, crash
bookkeeping), together with theorems settling the frozen claims about them.

Modelling conventions:
* Java string contents are `List Char`.
* The heap (a Python dict keyed by consecutively assigned reference ids
  starting from 0) is modelled as a `List JStr`; the reference id is the list
  index and the source's `next_ref` counter is the list length, which is
  faithful because both allocation functions write at key `next_ref` and then
  increment it.
* Python integers are unbounded, so `Int` is used with no modular reduction;
  Python `//` is floor division, `Int.fdiv`.
* A raised Python exception (failed `assert`, `NotImplementedError`,
  `TypeError`, `IndexError` on an empty operand stack, `KeyError` on a missing
  heap id) is the terminal `StepRes.fault`, distinct from every run `Outcome`.
-/

/-- Content of a Java string on the heap. -/
abbrev JStr := List Char

/-- `jvm.Value`: a tagged runtime value.  Reference payloads are either a heap
id (`some r`) or Python `None` (`none`).  Equality of two `Val`s coincides with
the source's `v1.type == v2.type and v1.value == v2.value`. -/
inductive Val where
  | vint (n : Int)
  | vbool (b : Bool)
  | vchar (c : Char)
  | vref (r : Option Nat)
deriving DecidableEq, Repr

/-- Terminal outcomes of a run: the strings returned by
`Interpreter.step` / `run_method` ("ok", "divide by zero", "null pointer",
"out of bounds", "assertion error", and "*" for an exhausted step budget). -/
inductive Outcome where
  | ok
  | divideByZero
  | nullPointer
  | outOfBounds
  | assertionError
  | budgetExceeded
deriving DecidableEq, Repr

/-- Integer binary operators handled by `step` (`jvm.BinaryOpr`). -/
inductive BinOp where
  | add | sub | mul | div
deriving DecidableEq, Repr

/-- `Ifz` comparator tokens ('eq'/'z', 'ne'/'nz', 'gt', 'ge', 'lt', 'le'). -/
inductive Cond where
  | eq | ne | gt | ge | lt | le
deriving DecidableEq, Repr

/-- `If` comparator tokens, including the reference-identity token "is". -/
inductive ICond where
  | eq | ne | gt | ge | lt | le | isCmp
deriving DecidableEq, Repr

/-- The `java/lang/String` virtual methods dispatched by `step`. -/
inductive StrMethod where
  | length | concat | equals | equalsIgnoreCase | charAt | substring
deriving DecidableEq, Repr

/-- Constants carried by a `Push` opcode.  The source checks
`v.type == Reference and isinstance(v.value, str | None)` to recognise string
literals and null references. -/
inductive Const where
  | cint (n : Int)
  | cbool (b : Bool)
  | cchar (c : Char)
  | cnull
  | cstr (s : JStr)
deriving DecidableEq, Repr

/-- The instruction subset modelled by `Interpreter.step`. -/
inductive Opcode where
  | push (c : Const)
  | incr (i : Nat) (amount : Int)
  | popOp
  | load (i : Nat)
  | store (i : Nat)
  | binary (op : BinOp)
  | retInt
  | retVoid
  | ifz (c : Cond) (t : Nat)
  | ifCmp (c : ICond) (t : Nat)
  | goto (t : Nat)
  | getStatic
  | dup
  | newClass (isString : Bool)
  | initString (withArg : Bool)
  | invokeVirtualStr (m : StrMethod)
  | invokeVirtualOther
  | invokeStaticOp
  | throwOp
deriving DecidableEq, Repr

/-- A call frame: local-variable map, operand stack (head = top), and program
counter offset into the method's opcode list. -/
structure Frame where
  locals : List (Nat × Val)
  stack : List Val
  pc : Nat
deriving DecidableEq, Repr

/-- Execution state: heap (index = reference id, length = `next_ref`), call
stack of frames (head = innermost), and the string-literal interning pool. -/
structure State where
  heap : List JStr
  frames : List Frame
  pool : List (JStr × Nat)
deriving DecidableEq, Repr

/-- Lookup in the locals dict. -/
def localsGet : List (Nat × Val) → Nat → Option Val
  | [], _ => none
  | (k, v) :: rest, i => if k = i then some v else localsGet rest i

/-- Write to the locals dict. -/
def localsSet : List (Nat × Val) → Nat → Val → List (Nat × Val)
  | [], i, v => [(i, v)]
  | (k, w) :: rest, i, v =>
    if k = i then (i, v) :: rest else (k, w) :: localsSet rest i v

/-- Lookup in the string-literal interning pool (`state.string_pool`). -/
def poolFind : List (JStr × Nat) → JStr → Option Nat
  | [], _ => none
  | (k, r) :: rest, s => if k = s then some r else poolFind rest s

/-- Result of a string allocation: the reference plus the updated heap/pool. -/
structure AllocRes where
  ref : Nat
  heap : List JStr
  pool : List (JStr × Nat)
deriving DecidableEq, Repr

/-- `Interpreter.alloc_string_literal` (interpreter.py 127-135): reuse the
pooled reference when the content was interned before, otherwise allocate at
`next_ref` and intern it. -/
def alloc_string_literal (heap : List JStr) (pool : List (JStr × Nat))
    (s : JStr) : AllocRes :=
  match poolFind pool s with
  | some r => ⟨r, heap, pool⟩
  | none => ⟨heap.length, heap ++ [s], (s, heap.length) :: pool⟩

/-- `Interpreter.alloc_string_object` (interpreter.py 137-141): always a fresh
reference at `next_ref`; the interning pool is not touched. -/
def alloc_string_object (heap : List JStr) (s : JStr) : Nat × List JStr :=
  (heap.length, heap ++ [s])

/-- The heap write performed by the `java/lang/String.<init>` cases of
`InvokeSpecial` (interpreter.py 292-342): `state.heap[this.value] = s`.
Every reachable receiver is a reference freshly produced by `New`, hence a
valid index, so the dict write is a list `set`. -/
def init_string_write (heap : List JStr) (r : Nat) (s : JStr) : List JStr :=
  heap.set r s

/-- `Interpreter.get_string` (interpreter.py 143-153).  A payload of `None`
yields `none`; an int payload is a heap lookup (a missing key is a Python
`KeyError`, i.e. a fault); a str payload (our `vchar`) is returned directly;
a bool payload is an int (0 or 1) in Python and is looked up as such. -/
def get_string (heap : List JStr) (v : Val) : Except Unit (Option JStr) :=
  match v with
  | .vref none => .ok none
  | .vref (some r) =>
    match heap.get? r with
    | some s => .ok (some s)
    | none => .error ()
  | .vint n =>
    if 0 ≤ n then
      match heap.get? n.toNat with
      | some s => .ok (some s)
      | none => .error ()
    else .error ()
  | .vbool b =>
    match heap.get? (if b then 1 else 0) with
    | some s => .ok (some s)
    | none => .error ()
  | .vchar c => .ok (some [c])

/-- `to_int` (interpreter.py 19-26): int, char (code point) and bool coerce;
anything else is an `AssertionError`, i.e. a fault. -/
def to_int : Val → Except Unit Int
  | .vint n => .ok n
  | .vchar c => .ok c.toNat
  | .vbool b => .ok (if b then 1 else 0)
  | _ => .error ()

/-- The `If` "is" comparator (interpreter.py 243-244):
`v1.type == v2.type and v1.value == v2.value`, which on our tagged values is
plain equality. -/
def acmp_is (v1 v2 : Val) : Bool := decide (v1 = v2)

/-- The value-equality computation of the `equals` case (interpreter.py
381-389), coverage hook aside: null on either side compares `false`,
otherwise content equality; an invalid heap reference faults. -/
def equals_result (heap : List JStr) (recv other : Val) : Except Unit Bool :=
  match get_string heap recv with
  | .error e => .error e
  | .ok s1 =>
    match get_string heap other with
    | .error e => .error e
    | .ok s2 =>
      match s1, s2 with
      | some a, some b => .ok (decide (a = b))
      | _, _ => .ok false

/-- The string `"null"` substituted for a null `concat` argument
(interpreter.py 369-370). -/
def nullLit : JStr := ['n', 'u', 'l', 'l']

/-- Python's `s[i:j]` in the branch guarded by
`0 <= i` and `i <= j <= len(s)` (interpreter.py 448-451). -/
def py_slice (s : JStr) (i j : Int) : JStr :=
  (s.drop i.toNat).take (j - i).toNat

/-- `Ifz` comparison of a value against zero (interpreter.py 222-236). -/
def condHolds (c : Cond) (v : Int) : Bool :=
  match c with
  | .eq => decide (v = 0)
  | .ne => decide (v ≠ 0)
  | .gt => decide (0 < v)
  | .ge => decide (0 ≤ v)
  | .lt => decide (v < 0)
  | .le => decide (v ≤ 0)

/-- Two-operand `If` comparison on coerced ints (interpreter.py 249-264). -/
def cond2Holds (c : ICond) (i1 i2 : Int) : Bool :=
  match c with
  | .eq => decide (i1 = i2)
  | .ne => decide (i1 ≠ i2)
  | .gt => decide (i2 < i1)
  | .ge => decide (i2 ≤ i1)
  | .lt => decide (i1 < i2)
  | .le => decide (i1 ≤ i2)
  | .isCmp => false

/-- Result of one interpreter step: a successor state, a terminal outcome, or
a raised Python exception (`fault`). -/
inductive StepRes where
  | next (s : State)
  | done (o : Outcome)
  | fault
deriving DecidableEq, Repr

/-- `Interpreter.step` (interpreter.py 155-488).  `cov` mirrors
`self.coverage is not None`.  The coverage hooks only influence control flow
in one place: `log_str_cmp` receives the raw `get_string` results of an
`equals`/`equalsIgnoreCase` comparison and raises (`len(None)` /
`None.lower()`) when either side is null. -/
def step (cov : Bool) (code : List Opcode) (st : State) : StepRes :=
  match st.frames with
  | [] => .fault
  | frame :: rest =>
    match code.get? frame.pc with
    | none => .fault
    | some op =>
      match op with
      | .push c =>
        match c with
        | .cstr s =>
          let a := alloc_string_literal st.heap st.pool s
          .next ⟨a.heap,
            { frame with stack := .vref (some a.ref) :: frame.stack,
                         pc := frame.pc + 1 } :: rest, a.pool⟩
        | .cnull =>
          .next ⟨st.heap,
            { frame with stack := .vref none :: frame.stack,
                         pc := frame.pc + 1 } :: rest, st.pool⟩
        | .cint n =>
          .next ⟨st.heap,
            { frame with stack := .vint n :: frame.stack,
                         pc := frame.pc + 1 } :: rest, st.pool⟩
        | .cbool b =>
          .next ⟨st.heap,
            { frame with stack := .vbool b :: frame.stack,
                         pc := frame.pc + 1 } :: rest, st.pool⟩
        | .cchar ch =>
          .next ⟨st.heap,
            { frame with stack := .vchar ch :: frame.stack,
                         pc := frame.pc + 1 } :: rest, st.pool⟩
      | .incr i c =>
        match (localsGet frame.locals i).getD (.vint 0) with
        | .vint n =>
          .next ⟨st.heap,
            { frame with locals := localsSet frame.locals i (.vint (n + c)),
                         pc := frame.pc + 1 } :: rest, st.pool⟩
        | _ => .fault
      | .popOp =>
        match frame.stack with
        | _ :: stk =>
          .next ⟨st.heap,
            { frame with stack := stk, pc := frame.pc + 1 } :: rest, st.pool⟩
        | [] => .fault
      | .load i =>
        match localsGet frame.locals i with
        | some v =>
          .next ⟨st.heap,
            { frame with stack := v :: frame.stack,
                         pc := frame.pc + 1 } :: rest, st.pool⟩
        | none => .fault
      | .store i =>
        match frame.stack with
        | v :: stk =>
          .next ⟨st.heap,
            { frame with locals := localsSet frame.locals i v, stack := stk,
                         pc := frame.pc + 1 } :: rest, st.pool⟩
        | [] => .fault
      | .binary bop =>
        match frame.stack with
        | v2 :: v1 :: stk =>
          match v1, v2 with
          | .vint n1, .vint n2 =>
            match bop with
            | .div =>
              if n2 = 0 then .done .divideByZero
              else
                .next ⟨st.heap,
                  { frame with stack := .vint (Int.fdiv n1 n2) :: stk,
                               pc := frame.pc + 1 } :: rest, st.pool⟩
            | .add =>
              .next ⟨st.heap,
                { frame with stack := .vint (n1 + n2) :: stk,
                             pc := frame.pc + 1 } :: rest, st.pool⟩
            | .sub =>
              .next ⟨st.heap,
                { frame with stack := .vint (n1 - n2) :: stk,
                             pc := frame.pc + 1 } :: rest, st.pool⟩
            | .mul =>
              .next ⟨st.heap,
                { frame with stack := .vint (n1 * n2) :: stk,
                             pc := frame.pc + 1 } :: rest, st.pool⟩
          | _, _ => .fault
        | _ => .fault
      | .retInt =>
        match frame.stack with
        | v :: _ =>
          match rest with
          | [] => .done .ok
          | caller :: rest2 =>
            .next ⟨st.heap,
              { caller with stack := v :: caller.stack,
                            pc := caller.pc + 1 } :: rest2, st.pool⟩
        | [] => .fault
      | .retVoid =>
        match rest with
        | [] => .done .ok
        | caller :: rest2 =>
          .next ⟨st.heap,
            { caller with pc := caller.pc + 1 } :: rest2, st.pool⟩
      | .ifz c t =>
        match frame.stack with
        | v :: stk =>
          match v with
          | .vbool b =>
            .next ⟨st.heap,
              { frame with stack := stk,
                           pc := if condHolds c (if b then 1 else 0) then t
                                 else frame.pc + 1 } :: rest, st.pool⟩
          | .vint n =>
            .next ⟨st.heap,
              { frame with stack := stk,
                           pc := if condHolds c n then t
                                 else frame.pc + 1 } :: rest, st.pool⟩
          | .vref (some r) =>
            .next ⟨st.heap,
              { frame with stack := stk,
                           pc := if condHolds c r then t
                                 else frame.pc + 1 } :: rest, st.pool⟩
          | _ => .fault
        | [] => .fault
      | .ifCmp c t =>
        match frame.stack with
        | v2 :: v1 :: stk =>
          match c with
          | .isCmp =>
            .next ⟨st.heap,
              { frame with stack := stk,
                           pc := if acmp_is v1 v2 then t
                                 else frame.pc + 1 } :: rest, st.pool⟩
          | _ =>
            match to_int v1, to_int v2 with
            | .ok i1, .ok i2 =>
              .next ⟨st.heap,
                { frame with stack := stk,
                             pc := if cond2Holds c i1 i2 then t
                                   else frame.pc + 1 } :: rest, st.pool⟩
            | _, _ => .fault
        | _ => .fault
      | .goto t =>
        .next ⟨st.heap, { frame with pc := t } :: rest, st.pool⟩
      | .getStatic =>
        .next ⟨st.heap,
          { frame with stack := .vint 0 :: frame.stack,
                       pc := frame.pc + 1 } :: rest, st.pool⟩
      | .dup =>
        match frame.stack with
        | v :: _ =>
          .next ⟨st.heap,
            { frame with stack := v :: frame.stack,
                         pc := frame.pc + 1 } :: rest, st.pool⟩
        | [] => .fault
      | .newClass isString =>
        if isString then
          let a := alloc_string_object st.heap []
          .next ⟨a.2,
            { frame with stack := .vref (some a.1) :: frame.stack,
                         pc := frame.pc + 1 } :: rest, st.pool⟩
        else
          .next ⟨st.heap,
            { frame with stack := .vint 0 :: frame.stack,
                         pc := frame.pc + 1 } :: rest, st.pool⟩
      | .initString withArg =>
        if withArg then
          match frame.stack with
          | arg :: thisV :: stk =>
            match get_string st.heap arg with
            | .error _ => .fault
            | .ok sOpt =>
              match thisV with
              | .vref (some r) =>
                .next ⟨init_string_write st.heap r (sOpt.getD []),
                  { frame with stack := stk,
                               pc := frame.pc + 1 } :: rest, st.pool⟩
              | _ => .fault
          | _ => .fault
        else
          match frame.stack with
          | thisV :: stk =>
            match thisV with
            | .vref (some r) =>
              .next ⟨init_string_write st.heap r [],
                { frame with stack := stk,
                             pc := frame.pc + 1 } :: rest, st.pool⟩
            | _ => .fault
          | [] => .fault
      | .invokeVirtualStr m =>
        match m with
        | .length =>
          match frame.stack with
          | recv :: stk =>
            if recv = .vref none then .done .nullPointer
            else
              match get_string st.heap recv with
              | .error _ => .fault
              | .ok none => .fault
              | .ok (some s) =>
                .next ⟨st.heap,
                  { frame with stack := .vint s.length :: stk,
                               pc := frame.pc + 1 } :: rest, st.pool⟩
          | [] => .fault
        | .concat =>
          match frame.stack with
          | arg :: recv :: stk =>
            if recv = .vref none then .done .nullPointer
            else
              match get_string st.heap recv with
              | .error _ => .fault
              | .ok none => .fault
              | .ok (some s1) =>
                if arg = .vref none then
                  let a := alloc_string_object st.heap (s1 ++ nullLit)
                  .next ⟨a.2,
                    { frame with stack := .vref (some a.1) :: stk,
                                 pc := frame.pc + 1 } :: rest, st.pool⟩
                else
                  match get_string st.heap arg with
                  | .error _ => .fault
                  | .ok none => .fault
                  | .ok (some s2) =>
                    let a := alloc_string_object st.heap (s1 ++ s2)
                    .next ⟨a.2,
                      { frame with stack := .vref (some a.1) :: stk,
                                   pc := frame.pc + 1 } :: rest, st.pool⟩
          | _ => .fault
        | .equals =>
          match frame.stack with
          | other :: recv :: stk =>
            match get_string st.heap recv with
            | .error _ => .fault
            | .ok s1 =>
              match get_string st.heap other with
              | .error _ => .fault
              | .ok s2 =>
                let isEq :=
                  match s1, s2 with
                  | some a, some b => decide (a = b)
                  | _, _ => false
                if cov && (s1.isNone || s2.isNone) then .fault
                else
                  .next ⟨st.heap,
                    { frame with stack := .vbool isEq :: stk,
                                 pc := frame.pc + 1 } :: rest, st.pool⟩
          | _ => .fault
        | .equalsIgnoreCase =>
          match frame.stack with
          | other :: recv :: stk =>
            match get_string st.heap recv with
            | .error _ => .fault
            | .ok s1 =>
              match get_string st.heap other with
              | .error _ => .fault
              | .ok s2 =>
                let isEq :=
                  match s1, s2 with
                  | some a, some b =>
                    decide (a.map Char.toLower = b.map Char.toLower)
                  | _, _ => false
                if cov && (s1.isNone || s2.isNone) then .fault
                else
                  .next ⟨st.heap,
                    { frame with stack := .vbool isEq :: stk,
                                 pc := frame.pc + 1 } :: rest, st.pool⟩
          | _ => .fault
        | .charAt =>
          match frame.stack with
          | idx :: recv :: stk =>
            match idx with
            | .vint i =>
              if recv = .vref none then .done .outOfBounds
              else
                match get_string st.heap recv with
                | .error _ => .fault
                | .ok none => .fault
                | .ok (some s) =>
                  if s.length = 0 then .done .assertionError
                  else if i < 0 ∨ (s.length : Int) ≤ i then .done .outOfBounds
                  else
                    .next ⟨st.heap,
                      { frame with stack := .vchar (s.getD i.toNat 'A') :: stk,
                                   pc := frame.pc + 1 } :: rest, st.pool⟩
            | _ => .fault
          | _ => .fault
        | .substring =>
          match frame.stack with
          | endV :: startV :: recv :: stk =>
            match startV, endV with
            | .vint i, .vint j =>
              if recv = .vref none then .done .outOfBounds
              else
                match get_string st.heap recv with
                | .error _ => .fault
                | .ok none => .fault
                | .ok (some s) =>
                  if i < 0 ∨ j < i ∨ (s.length : Int) < j then
                    .done .outOfBounds
                  else
                    let a := alloc_string_object st.heap (py_slice s i j)
                    .next ⟨a.2,
                      { frame with stack := .vref (some a.1) :: stk,
                                   pc := frame.pc + 1 } :: rest, st.pool⟩
            | _, _ => .fault
          | _ => .fault
      | .invokeVirtualOther =>
        .next ⟨st.heap, { frame with pc := frame.pc + 1 } :: rest, st.pool⟩
      | .invokeStaticOp =>
        .next ⟨st.heap, { frame with pc := frame.pc + 1 } :: rest, st.pool⟩
      | .throwOp =>
        match frame.stack with
        | exc :: _ =>
          if exc = .vref none then .done .nullPointer
          else .done .assertionError
        | [] => .fault

/-- Result of a full run: a terminal outcome or a raised exception. -/
inductive RunRes where
  | outcome (o : Outcome)
  | fault
deriving DecidableEq, Repr

/-- Initial state of `run_method` (interpreter.py 490-500): one frame whose
locals map slot `i` to the `i`-th argument. -/
def init_state (args : List Val) : State :=
  ⟨[], [⟨args.enum, [], 0⟩], []⟩

/-- The stepping loop of `run_method`: returns "*" (budget exceeded) after
`fuel` steps without a terminal outcome. -/
def runFrom (cov : Bool) (code : List Opcode) : Nat → State → RunRes
  | 0, _ => .outcome .budgetExceeded
  | n + 1, st =>
    match step cov code st with
    | .next st2 => runFrom cov code n st2
    | .done o => .outcome o
    | .fault => .fault

/-- `Interpreter.run_method` (interpreter.py 490-506). -/
def run_method (cov : Bool) (code : List Opcode) (args : List Val)
    (maxSteps : Nat) : RunRes :=
  runFrom cov code maxSteps (init_state args)

/-- Execute exactly `n` successor steps (for observing intermediate states). -/
def execSteps (cov : Bool) (code : List Opcode) : Nat → State → Option State
  | 0, st => some st
  | n + 1, st =>
    match step cov code st with
    | .next st2 => execSteps cov code n st2
    | _ => none

/-- A method whose only effect is `a / b` on its two int parameters, with the
quotient as return value. -/
def divProgram : List Opcode :=
  [.load 0, .load 1, .binary .div, .retInt]

/-- A method whose only effect is `a + b`, with the sum as return value. -/
def addProgram : List Opcode :=
  [.load 0, .load 1, .binary .add, .retInt]

/-!
Embedding of `src/solutions/fuzzer.py`: the coverage counters, the
integer-comparison feedback, the global-map merge, and the corpus / crash
bookkeeping of `Fuzzer.run`.
-/

/-- `Coverage.hit_loc` (fuzzer.py 37-40) on a single 8-bit counter: saturate
at 0xFF instead of wrapping. -/
def hit_cell (c : Nat) : Nat := if c < 255 then c + 1 else c

/-- `Fuzzer.bucket` (fuzzer.py 420-432): AFL-style hitcount bucketing with
thresholds (1, 2, 4, 8, 16, 32, 128). -/
def bucket (x : Nat) : Nat :=
  if x = 0 then 0
  else if x ≤ 1 then 1
  else if x ≤ 2 then 2
  else if x ≤ 4 then 3
  else if x ≤ 8 then 4
  else if x ≤ 16 then 5
  else if x ≤ 32 then 6
  else if x ≤ 128 then 7
  else 8

/-- The per-location global-map update of `Fuzzer.is_interesting_run`
(fuzzer.py 404-418): a zero local counter leaves the global cell alone; a
previously unhit cell takes the local count; otherwise the local count is
taken exactly when it reaches a strictly higher bucket. -/
def merge_cell (l g : Nat) : Nat :=
  if l = 0 then g
  else if g = 0 then l
  else if bucket g < bucket l then l
  else g

/-- `is_interesting_run`'s effect on the whole global bitmap (both maps have
the fixed COVERAGE_SIZE length). -/
def merge_map (localMap globalMap : List Nat) : List Nat :=
  List.zipWith merge_cell localMap globalMap

/-- `Coverage.score` (fuzzer.py 87-89): the number of nonzero counters. -/
def score : List Nat → Nat
  | [] => 0
  | b :: rest => (if b ≠ 0 then 1 else 0) + score rest

/-- Python `v & m` for a mask `0 ≤ m < 2^32`: the two's-complement AND of an
arbitrary-precision integer with such a mask depends only on `v mod 2^32`. -/
def py_mask32 (v : Int) (m : Nat) : Nat := (v.emod 4294967296).toNat &&& m

/-- `Coverage.log_int32_cmp` (fuzzer.py 46-63), rendered as the list of
offsets (relative to the location id of the program counter) whose counters
are hit, in hit order.  The sign test transcribes the source line
`sign = (val1 < 0 == val2 < 0) or (val1 >= 0 and val2 >= 0)` literally:
by Python comparison chaining, `val1 < 0 == val2 < 0` is
`(val1 < 0) and (0 == val2) and (val2 < 0)`. -/
def log_int32_cmp (val1 val2 : Int) : List Nat :=
  if (decide (val1 < 0) && decide ((0 : Int) = val2) && decide (val2 < 0))
      || (decide (0 ≤ val1) && decide (0 ≤ val2)) then
    4 :: (if py_mask32 val1 (0xFF <<< 24) = py_mask32 val2 (0xFF <<< 24) then
      1 :: (if py_mask32 val1 (0xFF <<< 16) = py_mask32 val2 (0xFF <<< 16) then
        2 :: (if py_mask32 val1 (0xFF <<< 8) = py_mask32 val2 (0xFF <<< 8) then
          [3]
        else [])
      else [])
    else [])
  else []

/-- Byte `k..k+7` of the 32-bit two's-complement representation of `v`
(the spec-side description of what the masks compare). -/
def byte_of (v : Int) (k : Nat) : Nat := (v.emod 4294967296).toNat >>> k % 256

/-- `Testcase` (fuzzer.py 92-97): input values, coverage score, mutation
depth.  The source has no per-testcase stagnation counter. -/
structure Testcase where
  input_values : List Val
  coverage_score : Nat
  depth : Nat
deriving DecidableEq, Repr

/-- The only corpus modification performed by an iteration of `Fuzzer.run`
(fuzzer.py 337-402): an interesting child is appended to the corpus; nothing
is ever removed (`max_corpus_size` and `USELESS_TESTCASE_ITER_LIMIT` are never
read after `__init__`). -/
def corpus_update (corpus : List Testcase) (child : Testcase)
    (interesting : Bool) : List Testcase :=
  if interesting then corpus ++ [child] else corpus

/-- The crash-recording state of a fuzzing session: seen dedup signatures and
the recorded crash list. -/
structure CrashState where
  signatures : List (Outcome × List Nat)
  crashes : List Testcase
deriving DecidableEq, Repr

/-- The crash handling of `Fuzzer.run` (fuzzer.py 380-393): when the outcome
is not "ok", a signature is computed from the outcome and the run's coverage
bitmap (the source hashes the bitmap tuple; Python's `hash` is a
deterministic function of it, so equal bitmaps give equal signatures), and the
testcase is recorded only when the signature is unseen. -/
def record_crash (cs : CrashState) (tc : Testcase) (result : Outcome)
    (bitmap : List Nat) : CrashState :=
  if result = .ok then cs
  else if (result, bitmap) ∈ cs.signatures then cs
  else ⟨(result, bitmap) :: cs.signatures, cs.crashes ++ [tc]⟩

/-!
Helper lemmas shared by the claim theorems.
-/

lemma poolFind_mem {s : JStr} {r : Nat} :
    ∀ {pool : List (JStr × Nat)}, poolFind pool s = some r → (s, r) ∈ pool := by
  intro pool
  induction pool with
  | nil => intro h; simp [poolFind] at h
  | cons p rest ih =>
    obtain ⟨k, v⟩ := p
    intro h
    rw [poolFind] at h
    split at h
    · next hk =>
      subst hk
      injection h with h2
      subst h2
      exact List.mem_cons_self _ _
    · exact List.mem_cons_of_mem _ (ih h)

lemma set_append_singleton {α : Type} (l : List α) (a b : α) :
    (l ++ [a]).set l.length b = l ++ [b] := by
  induction l with
  | nil => rfl
  | cons x t ih => simp [List.set, ih]

lemma get_string_ref {heap : List JStr} {r : Nat} {s : JStr}
    (h : heap.get? r = some s) :
    get_string heap (.vref (some r)) = .ok (some s) := by
  have h2 : heap[r]? = some s := by rw [← List.get?_eq_getElem?]; exact h
  simp [get_string, h2]

lemma equals_result_refs {heap : List JStr} {r1 r2 : Nat} {s1 s2 : JStr}
    (h1 : heap.get? r1 = some s1) (h2 : heap.get? r2 = some s2) :
    equals_result heap (.vref (some r1)) (.vref (some r2)) =
      .ok (decide (s1 = s2)) := by
  rw [equals_result, get_string_ref h1, get_string_ref h2]

lemma land_byte_mask (x k : Nat) : x &&& (255 <<< k) = (x >>> k % 256) <<< k := by
  apply Nat.eq_of_testBit_eq
  intro i
  have h255 : (255 : Nat) = 2 ^ 8 - 1 := by norm_num
  have h256 : (256 : Nat) = 2 ^ 8 := by norm_num
  rw [Nat.testBit_land, Nat.testBit_shiftLeft, Nat.testBit_shiftLeft, h255, h256,
    Nat.testBit_two_pow_sub_one, Nat.testBit_mod_two_pow, Nat.testBit_shiftRight]
  by_cases hki : k ≤ i
  · have h1 : i ≥ k := hki
    simp only [h1, decide_True, Bool.true_and]
    by_cases h8 : i - k < 8
    · simp only [h8, decide_True, Bool.true_and, Bool.and_true]
      congr 1
      omega
    · simp [h8]
  · have h1 : ¬(i ≥ k) := hki
    simp [h1]

lemma shiftLeft_inj {a b k : Nat} (h : a <<< k = b <<< k) : a = b := by
  rw [Nat.shiftLeft_eq, Nat.shiftLeft_eq] at h
  exact Nat.eq_of_mul_eq_mul_right (Nat.pos_pow_of_pos k (by norm_num)) h

/-- The two byte-mask comparisons of `log_int32_cmp` compare exactly the named
byte of the 32-bit representations. -/
lemma mask_eq_byte (v1 v2 : Int) (k : Nat) :
    (py_mask32 v1 (255 <<< k) = py_mask32 v2 (255 <<< k)) ↔
      byte_of v1 k = byte_of v2 k := by
  rw [py_mask32, py_mask32, byte_of, byte_of, land_byte_mask, land_byte_mask]
  constructor
  · exact shiftLeft_inj
  · intro h; rw [h]

/-- The chained-comparison disjunct `(val1 < 0) and (0 == val2) and (val2 < 0)`
is unsatisfiable, so the source's sign test reduces to
`val1 >= 0 and val2 >= 0`. -/
lemma sign_cond_eq (v1 v2 : Int) :
    ((decide (v1 < 0) && decide ((0 : Int) = v2) && decide (v2 < 0))
        || (decide (0 ≤ v1) && decide (0 ≤ v2)))
      = (decide (0 ≤ v1) && decide (0 ≤ v2)) := by
  by_cases h2 : (0 : Int) = v2
  · have h3 : ¬(v2 < 0) := by omega
    simp [h3]
  · simp [h2]

set_option maxHeartbeats 1000000 in
lemma bucket_mono {x y : Nat} (h : x ≤ y) : bucket x ≤ bucket y := by
  rw [bucket, bucket]
  split_ifs <;> omega

lemma merge_cell_ge (l g : Nat) : merge_cell l g = g ∨ g < merge_cell l g := by
  rw [merge_cell]
  split_ifs with h1 h2 h3
  · left; rfl
  · right; omega
  · right
    by_contra hc
    push_neg at hc
    exact absurd (bucket_mono hc) (by omega)
  · left; rfl

lemma merge_cell_ne_zero (l : Nat) {g : Nat} (h : g ≠ 0) : merge_cell l g ≠ 0 := by
  rcases merge_cell_ge l g with he | hl
  · rw [he]; exact h
  · omega

lemma score_merge : ∀ (l g : List Nat), l.length = g.length →
    score g ≤ score (merge_map l g) := by
  intro l
  induction l with
  | nil =>
    intro g hg
    cases g with
    | nil => simp [merge_map, score]
    | cons b u => simp at hg
  | cons a t ih =>
    intro g hg
    cases g with
    | nil => simp at hg
    | cons b u =>
      have hlen : t.length = u.length := by simpa using hg
      have hsc : score (merge_map (a :: t) (b :: u)) =
          (if merge_cell a b ≠ 0 then 1 else 0) + score (merge_map t u) := by
        simp [merge_map, score]
      rw [hsc, score]
      have htail := ih u hlen
      by_cases hb : b = 0
      · simp [hb]
        omega
      · have hnz : merge_cell a b ≠ 0 := merge_cell_ne_zero a hb
        simp [hb, hnz]
        omega

/-!
Claim theorems.
-/

/-- C1 (amended): running a method whose only effect is `a / b` terminates
with divide-by-zero when `b = 0`; when `b ≠ 0` it terminates with success and
the value computed by the division — on the operand stack at the return
instruction — is the floor-quotient `Int.fdiv a b` (Python `//` semantics,
rounding toward negative infinity). -/
theorem c1_div_floor_semantics (a b : Int) :
    (b = 0 → run_method false divProgram [.vint a, .vint b] 10 =
      .outcome .divideByZero)
    ∧ (b ≠ 0 →
        run_method false divProgram [.vint a, .vint b] 10 = .outcome .ok
        ∧ execSteps false divProgram 3 (init_state [.vint a, .vint b]) =
            some ⟨[], [⟨[(0, .vint a), (1, .vint b)],
              [.vint (Int.fdiv a b)], 3⟩], []⟩) := by
  constructor
  · intro hb
    subst hb
    simp [run_method, runFrom, init_state, divProgram, step, localsGet,
      List.enum, List.enumFrom]
  · intro hb
    constructor
    · simp [run_method, runFrom, init_state, divProgram, step, localsGet,
        List.enum, List.enumFrom, hb]
    · simp [execSteps, init_state, divProgram, step, localsGet,
        List.enum, List.enumFrom, hb]

/-- C1 witness: the divide-by-zero case at (7, 0) and the success case at
(-7, 2). -/
theorem c1_div_floor_semantics_witness :
    run_method false divProgram [.vint 7, .vint 0] 10 =
      .outcome .divideByZero
    ∧ run_method false divProgram [.vint (-7), .vint 2] 10 = .outcome .ok :=
  ⟨(c1_div_floor_semantics 7 0).1 rfl,
   ((c1_div_floor_semantics (-7) 2).2 (by decide)).1⟩

/-- C1 counterexample: at (a, b) = (-7, 2) the value the division leaves on
the stack is -4 (floor), not the truncating quotient -3 the claim requires;
and `a + b` at (2^31 - 1, 1) yields 2^31 with no truncation to a 32-bit
representation (the wrapped value would be -2^31). -/
theorem c1_trunc_counterexample :
    execSteps false divProgram 3 (init_state [.vint (-7), .vint 2]) =
      some ⟨[], [⟨[(0, .vint (-7)), (1, .vint 2)], [.vint (-4)], 3⟩], []⟩
    ∧ run_method false divProgram [.vint (-7), .vint 2] 10 = .outcome .ok
    ∧ Int.tdiv (-7) 2 = -3
    ∧ ((-4 : Int) ≠ -3)
    ∧ execSteps false addProgram 3 (init_state [.vint 2147483647, .vint 1]) =
      some ⟨[], [⟨[(0, .vint 2147483647), (1, .vint 1)],
        [.vint 2147483648], 3⟩], []⟩
    ∧ ((2147483648 : Int) ≠ -2147483648) := by decide

/-- C2: with a well-formed interning pool, pushing the literal `s` twice
yields the identical reference (and leaves heap and pool unchanged the second
time), so reference identity of the two pushes holds; constructing a string
object with the same content (`new String(...)`: a fresh allocation followed
by the constructor's heap write) yields a reference that differs from the
literal's and is absent from the interning pool, so reference identity with
the literal is false while value equality (`equals`) is true. -/
theorem c2_interning (heap : List JStr) (pool : List (JStr × Nat)) (s : JStr)
    (wf : ∀ p ∈ pool, heap.get? p.2 = some p.1)
    (r1 : Nat) (h1 : List JStr) (p1 : List (JStr × Nat))
    (hA : alloc_string_literal heap pool s = ⟨r1, h1, p1⟩) :
    alloc_string_literal h1 p1 s = ⟨r1, h1, p1⟩
    ∧ h1.get? r1 = some s
    ∧ acmp_is (.vref (some r1)) (.vref (some r1)) = true
    ∧ (alloc_string_object h1 []).1 ≠ r1
    ∧ acmp_is (.vref (some r1))
        (.vref (some (alloc_string_object h1 []).1)) = false
    ∧ equals_result
        (init_string_write (alloc_string_object h1 []).2
          (alloc_string_object h1 []).1 s)
        (.vref (some r1))
        (.vref (some (alloc_string_object h1 []).1)) = .ok true
    ∧ ∀ p ∈ p1, p.2 ≠ (alloc_string_object h1 []).1 := by
  rw [alloc_string_literal] at hA
  rcases hfind : poolFind pool s with _ | r
  · rw [hfind] at hA
    obtain ⟨rfl, rfl, rfl⟩ : heap.length = r1 ∧ heap ++ [s] = h1 ∧
        ((s, heap.length) :: pool) = p1 := by
      injection hA with e1 e2 e3; exact ⟨e1, e2, e3⟩
    have hget : (heap ++ [s]).get? heap.length = some s :=
      List.get?_concat_length heap s
    have hlen : (heap ++ [s]).length = heap.length + 1 := by simp
    refine ⟨?_, hget, by simp [acmp_is], ?_, ?_, ?_, ?_⟩
    · rw [alloc_string_literal, poolFind, if_pos rfl]
    · simp [alloc_string_object, hlen]
    · simp [acmp_is, alloc_string_object, hlen]
    · have hw : init_string_write ((heap ++ [s]) ++ [[]])
          (heap ++ [s]).length s = (heap ++ [s]) ++ [s] := by
        rw [init_string_write, set_append_singleton]
      simp only [alloc_string_object]
      rw [hw]
      have hg1 : ((heap ++ [s]) ++ [s]).get? heap.length = some s := by
        rw [List.get?_append (by simp), hget]
      have hg2 : ((heap ++ [s]) ++ [s]).get? (heap ++ [s]).length = some s :=
        List.get?_concat_length _ s
      rw [equals_result_refs hg1 hg2]
      simp
    · intro p hp
      rcases List.mem_cons.mp hp with h | h
      · subst h
        simp [alloc_string_object, hlen]
      · have hwp := wf p h
        have hlt : p.2 < heap.length := (List.get?_eq_some.mp hwp).1
        simp only [alloc_string_object, hlen]
        omega
  · rw [hfind] at hA
    obtain ⟨rfl, rfl, rfl⟩ : r = r1 ∧ heap = h1 ∧ pool = p1 := by
      injection hA with e1 e2 e3; exact ⟨e1, e2, e3⟩
    have hmem := poolFind_mem hfind
    have hget : heap.get? r = some s := wf _ hmem
    have hlt : r < heap.length := (List.get?_eq_some.mp hget).1
    refine ⟨?_, hget, by simp [acmp_is], ?_, ?_, ?_, ?_⟩
    · rw [alloc_string_literal, hfind]
    · simp only [alloc_string_object]
      omega
    · simp only [acmp_is, alloc_string_object, decide_eq_false_iff_not]
      intro hcon
      injection hcon with hcon2
      injection hcon2 with hcon3
      omega
    · have hw : init_string_write (heap ++ [[]]) heap.length s =
          heap ++ [s] := by
        rw [init_string_write, set_append_singleton]
      simp only [alloc_string_object]
      rw [hw]
      have hg1 : (heap ++ [s]).get? r = some s := by
        rw [List.get?_append hlt, hget]
      have hg2 : (heap ++ [s]).get? heap.length = some s :=
        List.get?_concat_length _ s
      rw [equals_result_refs hg1 hg2]
      simp
    · intro p hp
      have hwp := wf p hp
      have hplt : p.2 < heap.length := (List.get?_eq_some.mp hwp).1
      simp only [alloc_string_object]
      omega

/-- C2 witness: the interning scenario evaluated on the empty initial state
and the literal "a". -/
theorem c2_interning_witness :
    alloc_string_literal [['a']] [(['a'], 0)] ['a'] = ⟨0, [['a']], [(['a'], 0)]⟩
    ∧ (alloc_string_object [['a']] []).1 ≠ 0 :=
  ⟨(c2_interning [] [] ['a'] (by simp) 0 [['a']] [(['a'], 0)] rfl).1,
   (c2_interning [] [] ['a'] (by simp) 0 [['a']] [(['a'], 0)] rfl).2.2.2.1⟩

/-- C3 (amended): for a non-null string receiver `s` and integer index `i`,
`charAt(s, i)` terminates the run with out-of-bounds iff `s` is nonempty and
(`i < 0` or `i ≥ length s`); an empty receiver terminates the run with
assertion-error for every index; an in-bounds index on a nonempty receiver
continues the run with the character `s[i]` pushed. -/
theorem c3_charAt_amended (cov : Bool) (code : List Opcode) (heap : List JStr)
    (pool : List (JStr × Nat)) (locals : List (Nat × Val)) (tail : List Val)
    (rest : List Frame) (pc r : Nat) (i : Int) (s : JStr)
    (hcode : code.get? pc = some (.invokeVirtualStr .charAt))
    (hheap : heap.get? r = some s) :
    (step cov code
        ⟨heap, ⟨locals, .vint i :: .vref (some r) :: tail, pc⟩ :: rest, pool⟩
        = .done .outOfBounds ↔ s ≠ [] ∧ (i < 0 ∨ (s.length : Int) ≤ i))
    ∧ (s = [] →
        step cov code
          ⟨heap, ⟨locals, .vint i :: .vref (some r) :: tail, pc⟩ :: rest, pool⟩
          = .done .assertionError)
    ∧ (∀ c : Char, s.get? i.toNat = some c → 0 ≤ i → i < (s.length : Int) →
        step cov code
          ⟨heap, ⟨locals, .vint i :: .vref (some r) :: tail, pc⟩ :: rest, pool⟩
          = .next ⟨heap, ⟨locals, .vchar c :: tail, pc + 1⟩ :: rest, pool⟩) := by
  have hstep : step cov code
      ⟨heap, ⟨locals, .vint i :: .vref (some r) :: tail, pc⟩ :: rest, pool⟩ =
      (if s.length = 0 then .done .assertionError
       else if i < 0 ∨ (s.length : Int) ≤ i then .done .outOfBounds
       else .next ⟨heap, ⟨locals, .vchar (s.getD i.toNat 'A') :: tail, pc + 1⟩
         :: rest, pool⟩) := by
    simp only [step, hcode, get_string_ref hheap]
    rfl
  refine ⟨?_, ?_, ?_⟩
  · rw [hstep]
    by_cases hs : s.length = 0
    · simp [hs, List.length_eq_zero.mp hs]
    · by_cases hb : i < 0 ∨ (s.length : Int) ≤ i
      · simp [hs, hb]
        exact fun hcon => hs (by simp [hcon])
      · simp [hs, hb]
  · intro hs
    rw [hstep]
    simp [hs]
  · intro c hc h0 hlt
    rw [hstep]
    have hs : s.length ≠ 0 := by omega
    have hb : ¬(i < 0 ∨ (s.length : Int) ≤ i) := by omega
    rw [if_neg hs, if_neg hb]
    have hgd : s.getD i.toNat 'A' = c := by
      rw [List.getD_eq_getElem?_getD, ← List.get?_eq_getElem?, hc]
      rfl
    rw [hgd]

/-- C3 witness: `charAt("ab", 1)` pushes 'b' and continues. -/
theorem c3_charAt_amended_witness :
    step false [.invokeVirtualStr .charAt]
      ⟨[['a', 'b']], [⟨[], [.vint 1, .vref (some 0)], 0⟩], []⟩
      = .next ⟨[['a', 'b']], [⟨[], [.vchar 'b'], 1⟩], []⟩ :=
  (c3_charAt_amended false [.invokeVirtualStr .charAt] [['a', 'b']] [] [] []
    [] 0 0 1 ['a', 'b'] rfl rfl).2.2 'b' rfl (by decide) (by decide)

/-- C3 counterexample: for the empty string and index 0 the claimed condition
`i < 0 or i >= length(s)` holds, so the claim requires the out-of-bounds
outcome, but the run (push "", push 0, charAt, return) terminates with
assertion-error. -/
theorem c3_empty_charAt_counterexample :
    run_method false
      [.push (.cstr []), .push (.cint 0), .invokeVirtualStr .charAt, .retVoid]
      [] 10
      = .outcome .assertionError
    ∧ Outcome.assertionError ≠ Outcome.outOfBounds
    ∧ ((0 : Int) < 0 ∨ (List.length ([] : JStr) : Int) ≤ 0) := by decide

/-- C4: `substring(s, i, j)` on a non-null receiver terminates the run with
out-of-bounds iff `i < 0` or `j < i` or `j > length s`; otherwise the run
continues with a fresh heap string pushed whose length is `j - i` and whose
characters agree with `s` on the slice `[i..j)`. -/
theorem c4_substring_correct (cov : Bool) (code : List Opcode)
    (heap : List JStr) (pool : List (JStr × Nat)) (locals : List (Nat × Val))
    (tail : List Val) (rest : List Frame) (pc r : Nat) (i j : Int) (s : JStr)
    (hcode : code.get? pc = some (.invokeVirtualStr .substring))
    (hheap : heap.get? r = some s) :
    (step cov code
        ⟨heap, ⟨locals, .vint j :: .vint i :: .vref (some r) :: tail, pc⟩
          :: rest, pool⟩
        = .done .outOfBounds ↔ (i < 0 ∨ j < i ∨ (s.length : Int) < j))
    ∧ (0 ≤ i → i ≤ j → j ≤ (s.length : Int) →
        step cov code
          ⟨heap, ⟨locals, .vint j :: .vint i :: .vref (some r) :: tail, pc⟩
            :: rest, pool⟩
          = .next ⟨heap ++ [py_slice s i j],
              ⟨locals, .vref (some heap.length) :: tail, pc + 1⟩ :: rest, pool⟩
        ∧ (py_slice s i j).length = (j - i).toNat
        ∧ ∀ k : Nat, k < (j - i).toNat →
            (py_slice s i j).get? k = s.get? (i.toNat + k)) := by
  have hstep : step cov code
      ⟨heap, ⟨locals, .vint j :: .vint i :: .vref (some r) :: tail, pc⟩
        :: rest, pool⟩ =
      (if i < 0 ∨ j < i ∨ (s.length : Int) < j then .done .outOfBounds
       else .next ⟨heap ++ [py_slice s i j],
         ⟨locals, .vref (some heap.length) :: tail, pc + 1⟩ :: rest, pool⟩) := by
    simp only [step, hcode, get_string_ref hheap]
    rfl
  constructor
  · rw [hstep]
    by_cases hb : i < 0 ∨ j < i ∨ (s.length : Int) < j
    · simp [hb]
    · simp [hb]
  · intro h0 hij hj
    have hb : ¬(i < 0 ∨ j < i ∨ (s.length : Int) < j) := by omega
    rw [hstep, if_neg hb]
    refine ⟨rfl, ?_, ?_⟩
    · rw [py_slice, List.length_take, List.length_drop]
      omega
    · intro k hk
      rw [py_slice, List.get?_take hk, List.get?_drop]

/-- C4 witness: `substring("abc", 1, 2)` pushes a fresh reference to "b". -/
theorem c4_substring_correct_witness :
    step false [.invokeVirtualStr .substring]
      ⟨[['a', 'b', 'c']], [⟨[], [.vint 2, .vint 1, .vref (some 0)], 0⟩], []⟩
      = .next ⟨[['a', 'b', 'c'], ['b']], [⟨[], [.vref (some 1)], 1⟩], []⟩ :=
  ((c4_substring_correct false [.invokeVirtualStr .substring]
    [['a', 'b', 'c']] [] [] [] [] 0 0 1 2 ['a', 'b', 'c'] rfl rfl).2
    (by decide) (by decide) (by decide)).1

/-- C5 (amended): `concat` with a null receiver terminates the run with
null-pointer regardless of the argument; a null argument does not produce an
error — it is rendered as the four-character string "null" and appended to the
receiver's content; with both sides valid, a fresh heap string holding
receiver ++ argument is pushed and the run continues. -/
theorem c5_concat_amended (cov : Bool) (code : List Opcode) (heap : List JStr)
    (pool : List (JStr × Nat)) (locals : List (Nat × Val)) (tail : List Val)
    (rest : List Frame) (pc : Nat) (argV : Val) (r1 r2 : Nat) (s1 s2 : JStr)
    (hcode : code.get? pc = some (.invokeVirtualStr .concat))
    (h1 : heap.get? r1 = some s1) (h2 : heap.get? r2 = some s2) :
    step cov code ⟨heap, ⟨locals, argV :: .vref none :: tail, pc⟩ :: rest, pool⟩
      = .done .nullPointer
    ∧ step cov code
        ⟨heap, ⟨locals, .vref none :: .vref (some r1) :: tail, pc⟩ :: rest, pool⟩
      = .next ⟨heap ++ [s1 ++ nullLit],
          ⟨locals, .vref (some heap.length) :: tail, pc + 1⟩ :: rest, pool⟩
    ∧ step cov code
        ⟨heap, ⟨locals, .vref (some r2) :: .vref (some r1) :: tail, pc⟩
          :: rest, pool⟩
      = .next ⟨heap ++ [s1 ++ s2],
          ⟨locals, .vref (some heap.length) :: tail, pc + 1⟩ :: rest, pool⟩ := by
  refine ⟨?_, ?_, ?_⟩
  · simp only [step, hcode]
    rfl
  · simp only [step, hcode, get_string_ref h1]
    rfl
  · simp only [step, hcode, get_string_ref h1, get_string_ref h2]
    rfl

/-- C5 witness: `"a".concat("b")` pushes a fresh reference to "ab". -/
theorem c5_concat_amended_witness :
    step false [.invokeVirtualStr .concat]
      ⟨[['a'], ['b']], [⟨[], [.vref (some 1), .vref (some 0)], 0⟩], []⟩
      = .next ⟨[['a'], ['b'], ['a', 'b']], [⟨[], [.vref (some 2)], 1⟩], []⟩ :=
  (c5_concat_amended false [.invokeVirtualStr .concat] [['a'], ['b']] [] []
    [] [] 0 (.vbool false) 0 1 ['a'] ['b'] rfl rfl rfl).2.2

/-- C5 counterexample: the run (push "a", push null, concat, return) does not
terminate with null-pointer as the claim requires for a null argument; the
concat step pushes a fresh heap string "anull" and the run ends with success. -/
theorem c5_null_arg_counterexample :
    run_method false
      [.push (.cstr ['a']), .push .cnull, .invokeVirtualStr .concat, .retVoid]
      [] 10
      = .outcome .ok
    ∧ execSteps false
        [.push (.cstr ['a']), .push .cnull, .invokeVirtualStr .concat, .retVoid]
        3 (init_state [])
      = some ⟨[['a'], ['a', 'n', 'u', 'l', 'l']],
          [⟨[], [.vref (some 1)], 3⟩], [(['a'], 0)]⟩
    ∧ Outcome.ok ≠ Outcome.nullPointer := by decide

/-- C6: the claim is right that a null side of `equals`/`equalsIgnoreCase`
pushes false and never yields an error outcome, and the coverage-disabled
interpreter does exactly that; but with coverage enabled the source passes the
raw `None` to `Coverage.log_str_cmp`, which evaluates `len(None)` (`equals`)
or `None.lower()` (`equalsIgnoreCase`) and raises — an interpreter fault —
contradicting the claim's "including when coverage instrumentation is
enabled". -/
theorem c6_equals_null_coverage_bug :
    step true [.invokeVirtualStr .equals]
      ⟨[['a']], [⟨[], [.vref none, .vref (some 0)], 0⟩], []⟩ = .fault
    ∧ step false [.invokeVirtualStr .equals]
        ⟨[['a']], [⟨[], [.vref none, .vref (some 0)], 0⟩], []⟩
      = .next ⟨[['a']], [⟨[], [.vbool false], 1⟩], []⟩
    ∧ step true [.invokeVirtualStr .equalsIgnoreCase]
        ⟨[['a']], [⟨[], [.vref none, .vref (some 0)], 0⟩], []⟩ = .fault := by
  decide

/-- C7 (amended): `log_int32_cmp` hits at most four auxiliary locations; the
sign location (offset 4) is hit exactly when both operands are non-negative —
not whenever the signs merely match, because the source's chained comparison
`val1 < 0 == val2 < 0` is unsatisfiable — and, given that, one further
location per matching byte of the 32-bit representations, from bits 24-31
(offset 1) through 16-23 (offset 2) to 8-15 (offset 3), stopping at the first
mismatch. -/
theorem c7_int_feedback_amended (v1 v2 : Int) :
    (log_int32_cmp v1 v2).length ≤ 4
    ∧ ((4 : Nat) ∈ log_int32_cmp v1 v2 ↔ 0 ≤ v1 ∧ 0 ≤ v2)
    ∧ ((1 : Nat) ∈ log_int32_cmp v1 v2 ↔
        (0 ≤ v1 ∧ 0 ≤ v2) ∧ byte_of v1 24 = byte_of v2 24)
    ∧ ((2 : Nat) ∈ log_int32_cmp v1 v2 ↔
        (0 ≤ v1 ∧ 0 ≤ v2) ∧ byte_of v1 24 = byte_of v2 24
          ∧ byte_of v1 16 = byte_of v2 16)
    ∧ ((3 : Nat) ∈ log_int32_cmp v1 v2 ↔
        (0 ≤ v1 ∧ 0 ≤ v2) ∧ byte_of v1 24 = byte_of v2 24
          ∧ byte_of v1 16 = byte_of v2 16 ∧ byte_of v1 8 = byte_of v2 8) := by
  rw [log_int32_cmp, sign_cond_eq]
  by_cases hs : 0 ≤ v1 ∧ 0 ≤ v2
  · obtain ⟨hs1, hs2⟩ := hs
    simp only [hs1, hs2, decide_True, Bool.and_self, if_true]
    by_cases hb0 : byte_of v1 24 = byte_of v2 24
    · rw [if_pos ((mask_eq_byte v1 v2 24).mpr hb0)]
      by_cases hb1 : byte_of v1 16 = byte_of v2 16
      · rw [if_pos ((mask_eq_byte v1 v2 16).mpr hb1)]
        by_cases hb2 : byte_of v1 8 = byte_of v2 8
        · rw [if_pos ((mask_eq_byte v1 v2 8).mpr hb2)]
          simp [hs1, hs2, hb0, hb1, hb2]
        · rw [if_neg (fun hc => hb2 ((mask_eq_byte v1 v2 8).mp hc))]
          simp [hs1, hs2, hb0, hb1, hb2]
      · rw [if_neg (fun hc => hb1 ((mask_eq_byte v1 v2 16).mp hc))]
        simp [hs1, hs2, hb0, hb1]
    · rw [if_neg (fun hc => hb0 ((mask_eq_byte v1 v2 24).mp hc))]
      simp [hs1, hs2, hb0]
  · have hcond : ¬(decide (0 ≤ v1) && decide (0 ≤ v2)) = true := by
      simp only [Bool.and_eq_true, decide_eq_true_eq]
      exact hs
    rw [if_neg hcond]
    simp [hs]

/-- C7 counterexample: two negative operands have matching signs, yet no
auxiliary location at all is hit — the sign-credit location included — so the
claim's "two negative operands get sign credit" is false. -/
theorem c7_sign_counterexample :
    (((-1 : Int) < 0) ∧ ((-1 : Int) < 0))
    ∧ log_int32_cmp (-1) (-1) = [] := by decide

/-- C8: the interestingness merge leaves every global counter unchanged or
replaces it by a strictly larger value, never zeroes a nonzero counter, and
the global score (count of nonzero counters) is non-decreasing under a merge
of same-sized maps; local counters saturate at 255 instead of wrapping, and
hitting a counter never decreases it. -/
theorem c8_coverage_monotone :
    (∀ l g : Nat, merge_cell l g = g ∨ g < merge_cell l g)
    ∧ (∀ l g : Nat, g ≠ 0 → merge_cell l g ≠ 0)
    ∧ (∀ localMap globalMap : List Nat, localMap.length = globalMap.length →
        score globalMap ≤ score (merge_map localMap globalMap))
    ∧ (∀ c : Nat, c ≤ 255 → c ≤ hit_cell c ∧ hit_cell c ≤ 255) := by
  refine ⟨merge_cell_ge, fun l g h => merge_cell_ne_zero l h, score_merge, ?_⟩
  intro c hc
  rw [hit_cell]
  split_ifs <;> omega

/-- C8 witness: a concrete merge of same-length maps, a nonzero global cell,
and a saturated counter. -/
theorem c8_coverage_monotone_witness :
    merge_cell 3 2 ≠ 0
    ∧ score [2] ≤ score (merge_map [5] [2])
    ∧ (254 ≤ hit_cell 254 ∧ hit_cell 254 ≤ 255) :=
  ⟨c8_coverage_monotone.2.1 3 2 (by decide),
   c8_coverage_monotone.2.2.1 [5] [2] rfl,
   c8_coverage_monotone.2.2.2 254 (by decide)⟩

/-- C9: the claim describes stagnation-based pruning and a top-N cut keeping
the corpus within `max_corpus_size`, but `Fuzzer.run` performs no pruning at
all — its only corpus modification appends an interesting child — so with
`max_corpus_size = 1` a single interesting run already leaves a corpus of
size 2. -/
theorem c9_corpus_unbounded_bug :
    (corpus_update [⟨[], 0, 0⟩] ⟨[], 0, 1⟩ true).length = 2
    ∧ 1 < (corpus_update [⟨[], 0, 0⟩] ⟨[], 0, 1⟩ true).length := by decide

/-- C10: the crash-recording step is idempotent on an identical second run —
the deterministic interpreter and coverage produce the same outcome and bitmap
for the same testcase, hence the same dedup signature, which is already
present after the first run — so two executions of the same crashing testcase
record exactly one crash. -/
theorem c10_crash_dedup (cs : CrashState) (tc : Testcase) (r : Outcome)
    (m : List Nat) (h : r ≠ .ok) :
    record_crash (record_crash cs tc r m) tc r m = record_crash cs tc r m
    ∧ (record_crash (record_crash ⟨[], []⟩ tc r m) tc r m).crashes = [tc] := by
  have key : ∀ cs' : CrashState,
      (r, m) ∈ (record_crash cs' tc r m).signatures := by
    intro cs'
    rw [record_crash, if_neg h]
    split_ifs with hmem
    · exact hmem
    · exact List.mem_cons_self _ _
  constructor
  · rw [record_crash, if_neg h, if_pos (key cs)]
  · rw [record_crash, if_neg h, if_pos (key ⟨[], []⟩)]
    rw [record_crash, if_neg h, if_neg (by simp)]
    simp

/-- C10 witness: a divide-by-zero crash with coverage bitmap [1, 0] recorded
twice from the empty session state yields one crash. -/
theorem c10_crash_dedup_witness :
    record_crash (record_crash ⟨[], []⟩ ⟨[], 0, 0⟩ .divideByZero [1, 0])
        ⟨[], 0, 0⟩ .divideByZero [1, 0]
      = record_crash ⟨[], []⟩ ⟨[], 0, 0⟩ .divideByZero [1, 0]
    ∧ (record_crash (record_crash ⟨[], []⟩ ⟨[], 0, 0⟩ .divideByZero [1, 0])
        ⟨[], 0, 0⟩ .divideByZero [1, 0]).crashes = [⟨[], 0, 0⟩] :=
  c10_crash_dedup ⟨[], []⟩ ⟨[], 0, 0⟩ .divideByZero [1, 0] (by decide)
